import Mathlib

/-!
# kyber: the Curve25519 group (`group/curve25519`) and the suite registry

A shallow embedding of `group/curve25519/scalar.go`, `group/curve25519/point.go`,
`group/curve25519/curve.go` and of the registration list of `suites/all.go`.

Go methods with a pointer receiver are functions that take the receiver's value and
give back its new value.  The field arithmetic the package calls (`feToBytes`,
`feFromBytes`, `feAdd`, ..., `ScalarMult`, `basePoint`) is not part of the files
embedded here; it is a parameter (`FieldEngine`) of every operation.
-/

namespace Kyber

/-! ## Bytes and arrays -/

/-- A Go `byte`. -/
abbrev Byte := Fin 256

/-- A Go `[32]byte`. -/
abbrev Bytes32 := { l : List Byte // l.length = 32 }

/-- The zero value of `[32]byte`. -/
def zero32 : Bytes32 := ⟨List.replicate 32 0, by simp⟩

/-- Go `copy(buf[:], data)` into a fresh `var buf [32]byte`: the first
`min 32 (len data)` bytes of `data`, the rest of the array keeps its zeros. -/
def copy32 (data : List Byte) : Bytes32 :=
  ⟨data.take 32 ++ List.replicate (32 - data.length) 0, by
    simp only [List.length_append, List.length_take, List.length_replicate]; omega⟩

/-- A Go `error`: `none` is `nil`, `some msg` is `errors.New(msg)`. -/
abbrev Error := Option String

/-- A Go `cipher.Stream`, as the key stream it produces. -/
abbrev Stream := Nat → Byte

/-! ## The field engine -/

/-- The field arithmetic used by `scalar.go` and `point.go`, with the names the
callers use, over the type `F` of a `fieldElement`.  An out-parameter is the
function's result. -/
structure FieldEngine (F : Type) where
  /-- The Go zero value `fieldElement{}`. -/
  zeroValue : F
  /-- The value `feZero(&fe)` stores. -/
  feZero : F
  /-- The value `feOne(&fe)` stores. -/
  feOne : F
  /-- The value `feAdd(&dst, &a, &b)` stores. -/
  feAdd : F → F → F
  /-- The value `feSub(&dst, &a, &b)` stores. -/
  feSub : F → F → F
  /-- The value `feMul(&dst, &a, &b)` stores. -/
  feMul : F → F → F
  /-- The value `feInvert(&dst, &a)` stores. -/
  feInvert : F → F
  /-- The value `feToBytes(&buf, &fe)` stores in `buf`. -/
  feToBytes : F → Bytes32
  /-- The value `feFromBytes(&fe, &buf)` stores in `fe`. -/
  feFromBytes : Bytes32 → F
  /-- The value `ScalarMult(&dst, &in, &base)` stores in `dst`. -/
  ScalarMult : Bytes32 → F → F
  /-- The package variable `basePoint`, whose slice `basePoint[:]` is a `[]byte`. -/
  basePoint : Bytes32

/-- An element is in the engine's canonical form when decoding its encoding gives
it back. -/
def FieldEngine.Canonical {F : Type} (E : FieldEngine F) (x : F) : Prop :=
  E.feFromBytes (E.feToBytes x) = x

/-! ## `scalar.go` -/

/-- Go `type scalar struct { fieldElement }`. -/
structure scalar (F : Type) where
  fieldElement : F
deriving DecidableEq

/-- Go `&scalar{}`, as `Curve25519.Scalar()` returns it. -/
def Curve25519.Scalar {F : Type} (E : FieldEngine F) : scalar F := ⟨E.zeroValue⟩

namespace scalar

variable {F : Type}

/-- Go `func (s scalar) MarshalBinary() (data []byte, err error)`. -/
def MarshalBinary (E : FieldEngine F) (s : scalar F) : List Byte × Error :=
  let fe := s.fieldElement
  let out := E.feToBytes fe
  (out.val, none)

/-- Go `func (s *scalar) UnmarshalBinary(data []byte) error`: the receiver after the
call and the error. -/
def UnmarshalBinary (E : FieldEngine F) (s : scalar F) (data : List Byte) :
    scalar F × Error :=
  if data.length ≠ 32 then
    (s, some "need 32 bytes for unmarshalling")
  else
    let src := copy32 data
    (⟨E.feFromBytes src⟩, none)

/-- Go `func (s scalar) MarshalSize() int`. -/
def MarshalSize (_s : scalar F) : Nat := 32

/-- Go `func (s scalar) Equal(s2 kyber.Scalar) bool`, for `s2` a scalar of this
package (the type assertion succeeds); `==` compares the stored field elements. -/
def Equal [DecidableEq F] (s s2 : scalar F) : Bool :=
  decide (s.fieldElement = s2.fieldElement)

/-- Go `func (s *scalar) Set(a kyber.Scalar) kyber.Scalar`. -/
def Set (_s a : scalar F) : scalar F := ⟨a.fieldElement⟩

/-- Go `func (s *scalar) Clone() kyber.Scalar`. -/
def Clone (s : scalar F) : scalar F := ⟨s.fieldElement⟩

/-- Go `func (s *scalar) SetBytes(src []byte) kyber.Scalar`. -/
def SetBytes (E : FieldEngine F) (_s : scalar F) (src : List Byte) : scalar F :=
  let sa := copy32 src
  ⟨E.feFromBytes sa⟩

/-- Go `binary.LittleEndian.PutUint64(buf[:], u)` on a zeroed `[32]byte`: the eight
little-endian bytes of `u`, then 24 zeros. -/
def putUint64 (u : Nat) : List Byte :=
  (List.range 8).map (fun i => (⟨(u / 256 ^ i) % 256, Nat.mod_lt _ (by decide)⟩ : Byte))
    ++ List.replicate 24 0

/-- Go `func (s *scalar) SetInt64(v int64) kyber.Scalar`; `uint64(v)` is
`v mod 2^64`. -/
def SetInt64 (E : FieldEngine F) (s : scalar F) (v : Int) : scalar F :=
  let buf := putUint64 (v % 2 ^ 64).toNat
  SetBytes E s buf

/-- Go `func (s *scalar) Zero() kyber.Scalar`. -/
def Zero (E : FieldEngine F) (_s : scalar F) : scalar F := ⟨E.feZero⟩

/-- Go `func (s *scalar) One() kyber.Scalar`. -/
def One (E : FieldEngine F) (_s : scalar F) : scalar F := ⟨E.feOne⟩

/-- Go `func (s *scalar) Add(a, b kyber.Scalar) kyber.Scalar`. -/
def Add (E : FieldEngine F) (_s a b : scalar F) : scalar F :=
  ⟨E.feAdd a.fieldElement b.fieldElement⟩

/-- Go `func (s *scalar) Sub(a, b kyber.Scalar) kyber.Scalar`. -/
def Sub (E : FieldEngine F) (_s a b : scalar F) : scalar F :=
  ⟨E.feSub a.fieldElement b.fieldElement⟩

/-- Go `func (s *scalar) Neg(a kyber.Scalar) kyber.Scalar`. -/
def Neg (E : FieldEngine F) (_s a : scalar F) : scalar F :=
  let z := E.feZero
  ⟨E.feSub z a.fieldElement⟩

/-- Go `func (s *scalar) Mul(a, b kyber.Scalar) kyber.Scalar`. -/
def Mul (E : FieldEngine F) (_s a b : scalar F) : scalar F :=
  ⟨E.feMul a.fieldElement b.fieldElement⟩

/-- Go `func (s *scalar) Div(a, b kyber.Scalar) kyber.Scalar`. -/
def Div (E : FieldEngine F) (_s a b : scalar F) : scalar F :=
  let inv := E.feInvert b.fieldElement
  ⟨E.feMul a.fieldElement inv⟩

/-- Go `func (s *scalar) Inv(a kyber.Scalar) kyber.Scalar`: the body is
`feInvert(&s.fieldElement, &s.fieldElement)`; `a` is not read. -/
def Inv (E : FieldEngine F) (s _a : scalar F) : scalar F :=
  ⟨E.feInvert s.fieldElement⟩

/-- Go `func (s *scalar) Pick(rand cipher.Stream) kyber.Scalar`: `XORKeyStream` on a
zeroed buffer leaves the first 32 bytes of the key stream. -/
def Pick (E : FieldEngine F) (s : scalar F) (rand : Stream) : scalar F :=
  let b := (List.range 32).map rand
  SetBytes E s b

end scalar

/-! ## `point.go` -/

/-- Go `type point struct { X fieldElement; Y fieldElement }`. -/
structure point (F : Type) where
  X : F
  Y : F
deriving DecidableEq

/-- Go `&point{}`, as `Curve25519.Point()` returns it. -/
def Curve25519.Point {F : Type} (E : FieldEngine F) : point F := ⟨E.zeroValue, E.zeroValue⟩

namespace point

variable {F : Type}

/-- Go `func (p point) MarshalBinary() (data []byte, err error)`. -/
def MarshalBinary (E : FieldEngine F) (p : point F) : List Byte × Error :=
  let buf := E.feToBytes p.X
  (buf.val, none)

/-- Go `func (p *point) UnmarshalBinary(data []byte) error`: the receiver after the
call and the error. -/
def UnmarshalBinary (E : FieldEngine F) (p : point F) (data : List Byte) :
    point F × Error :=
  let buf := copy32 data
  ({ p with X := E.feFromBytes buf }, none)

/-- Go `func (p *point) MarshalSize() int`. -/
def MarshalSize (_p : point F) : Nat := 32

/-- Go `func (p *point) Equal(s2 kyber.Point) bool`; `==` compares the stored `X`. -/
def Equal [DecidableEq F] (p s2 : point F) : Bool :=
  decide (p.X = s2.X)

/-- Go `func (p *point) Null() kyber.Point`. -/
def Null (E : FieldEngine F) (p : point F) : point F := { p with X := E.zeroValue }

/-- Go `func (p *point) Base() kyber.Point`. -/
def Base (E : FieldEngine F) (p : point F) : point F :=
  (UnmarshalBinary E p E.basePoint.val).1

/-- Go `func (p *point) EmbedLen() int`. -/
def EmbedLen (_p : point F) : Nat := 28

/-- Go `func (p *point) Embed(data []byte, r cipher.Stream) kyber.Point`. -/
def Embed (E : FieldEngine F) (p : point F) (_data : List Byte) (_r : Stream) : point F :=
  Base E p

/-- Go `func (p *point) Data() ([]byte, error)`. -/
def Data (_p : point F) : List Byte × Error :=
  ([], none)

/-- Go `func (p *point) Add(a, b kyber.Point) kyber.Point`: the body declares `x3`
and returns the receiver. -/
def Add (p _a _b : point F) : point F := p

/-- Go `func (p *point) Sub(a, b kyber.Point) kyber.Point`. -/
def Sub (p _a _b : point F) : point F := p

/-- Go `func (p *point) Neg(a kyber.Point) kyber.Point`. -/
def Neg (p _a : point F) : point F := p

/-- Go `func (p *point) Pick(rand cipher.Stream) kyber.Point`: `XORKeyStream` on the
zeroed 32-byte buffer leaves the first 32 bytes of the key stream, which are decoded
into `X` (the source's call `feFromBytes(&p.X)` leaves the buffer argument out). -/
def Pick (E : FieldEngine F) (p : point F) (rand : Stream) : point F :=
  let buf := (List.range 32).map rand
  { p with X := E.feFromBytes (copy32 buf) }

/-- Go `func (p *point) Set(p2 kyber.Point) kyber.Point`: `p.X = p2.(*point).X`; the
second assignment names a field `Z` that the struct does not have. -/
def Set (p p2 : point F) : point F := { p with X := p2.X }

/-- Go `func (p *point) Clone() kyber.Point`: `Set` into a new zero point. -/
def Clone (E : FieldEngine F) (p : point F) : point F :=
  let c : point F := ⟨E.zeroValue, E.zeroValue⟩
  Set c p

/-- Go `func (p *point) Mul(s kyber.Scalar, p2 kyber.Point) kyber.Point`; `p2 = none`
is the `nil` point.  The variable `px` is declared from the array `basePoint` and
then assigned a point's `X`, so here a `fieldElement` is a `[32]byte`. -/
def Mul (E : FieldEngine Bytes32) (p : point Bytes32) (s : scalar Bytes32)
    (p2 : Option (point Bytes32)) : point Bytes32 :=
  let px : Bytes32 :=
    match p2 with
    | none => E.basePoint
    | some q => q.X
  let sbuf := E.feToBytes s.fieldElement
  { p with X := E.ScalarMult sbuf px }

end point

/-! ## `curve.go` -/

/-- Go `func (c *Curve25519) String() string`. -/
def Curve25519.String : String := "Ed25519"

/-- Go `func (c *Curve25519) ScalarLen() int`. -/
def Curve25519.ScalarLen : Nat := 32

/-- Go `func (c *Curve25519) PointLen() int`. -/
def Curve25519.PointLen : Nat := 32

/-! ## A field engine for Curve25519 -/

/-- Modelled from the spec: the prime modulus of the Curve25519 field,
`2^255 - 19` (the field arithmetic is not among the embedded files). -/
def fieldPrime : Nat := 2 ^ 255 - 19

/-- Modelled from the spec: the integer a byte string encodes, little-endian (the
byte order of the Curve25519 family). -/
def leDecode : List Byte → Nat
  | [] => 0
  | b :: bs => b.val + 256 * leDecode bs

/-- Modelled from the spec: the fixed-length 32-byte little-endian encoding of an
integer. -/
def encode32 (v : Nat) : Bytes32 :=
  ⟨(List.range 32).map (fun i => (⟨(v / 256 ^ i) % 256, Nat.mod_lt _ (by decide)⟩ : Byte)),
    by simp⟩

/-- Modelled from the spec: modular exponentiation by squaring, `b ^ e mod m` for
`e < 2 ^ fuel`; it serves the modular inverse. -/
def powMod (m : Nat) : Nat → Nat → Nat → Nat
  | 0, _, _ => 1 % m
  | fuel + 1, b, e =>
    if e = 0 then 1 % m
    else
      let h := powMod m fuel (b * b % m) (e / 2)
      if e % 2 = 1 then b * h % m else h

/-- Modelled from the spec: one step of the x-only Montgomery ladder on
`y^2 = x^3 + 486662 x^2 + x`, on the state `(x2, z2, x3, z3)`. -/
def ladderStep (x1 : Nat) (st : Nat × Nat × Nat × Nat) (bit : Bool) :
    Nat × Nat × Nat × Nat :=
  let q := fieldPrime
  let x2 := if bit then st.2.2.1 else st.1
  let z2 := if bit then st.2.2.2 else st.2.1
  let x3 := if bit then st.1 else st.2.2.1
  let z3 := if bit then st.2.1 else st.2.2.2
  let a := (x2 + z2) % q
  let aa := a * a % q
  let b := (x2 + q - z2) % q
  let bb := b * b % q
  let e := (aa + q - bb) % q
  let c := (x3 + z3) % q
  let d := (x3 + q - z3) % q
  let da := d * a % q
  let cb := c * b % q
  let nx3 := (da + cb) * (da + cb) % q
  let nz3 := x1 * ((da + q - cb) * (da + q - cb) % q) % q
  let nx2 := aa * bb % q
  let nz2 := e * ((aa + 121665 * e) % q) % q
  if bit then (nx3, nz3, nx2, nz2) else (nx2, nz2, nx3, nz3)

/-- Modelled from the spec: scalar multiplication on the Montgomery curve, on
x-coordinates: the x-coordinate of `k` times the point of x-coordinate `x1`, and 0
for the neutral element. -/
def scalarMultNat (k x1 : Nat) : Nat :=
  let st := ((List.range 256).reverse.map (fun i => decide ((k / 2 ^ i) % 2 = 1))).foldl
    (ladderStep x1) (1, 0, x1, 1)
  st.1 * powMod fieldPrime 255 st.2.1 (fieldPrime - 2) % fieldPrime

/-- Modelled from the spec: the field arithmetic engine for Curve25519, which is
not among the embedded files.  A field element is an integer modulo `2^255 - 19`
held as its 32 little-endian bytes; every operation returns the canonical reduced
form in `[0, p)`; `feInvert` gives 0 on 0; the base point is the curve's generator,
of x-coordinate 9. -/
def specField : FieldEngine Bytes32 where
  zeroValue := zero32
  feZero := encode32 0
  feOne := encode32 1
  feAdd a b := encode32 ((leDecode a.val + leDecode b.val) % fieldPrime)
  feSub a b := encode32 ((leDecode a.val + fieldPrime - leDecode b.val % fieldPrime) % fieldPrime)
  feMul a b := encode32 (leDecode a.val * leDecode b.val % fieldPrime)
  feInvert a := encode32 (powMod fieldPrime 255 (leDecode a.val % fieldPrime) (fieldPrime - 2))
  feToBytes a := encode32 (leDecode a.val % fieldPrime)
  feFromBytes b := encode32 (leDecode b.val % fieldPrime)
  ScalarMult k b := encode32 (scalarMultNat (leDecode k.val) (leDecode b.val % fieldPrime))
  basePoint := encode32 9

instance {F : Type} [DecidableEq F] (E : FieldEngine F) (x : F) : Decidable (E.Canonical x) :=
  inferInstanceAs (Decidable (E.feFromBytes (E.feToBytes x) = x))

/-! ## The values the package builds -/

/-- The scalars the package builds: the scalar of `Curve25519.Scalar()` and the
receiver after every method of `scalar.go` that stores into it, called on built
scalars (`UnmarshalFrom` stores through `UnmarshalBinary` or `Pick`). -/
inductive scalar.Built {F : Type} (E : FieldEngine F) : scalar F → Prop
  | fresh : scalar.Built E (Curve25519.Scalar E)
  | UnmarshalBinary (s : scalar F) (data : List Byte) :
      scalar.Built E s → scalar.Built E (scalar.UnmarshalBinary E s data).1
  | Set (s a : scalar F) : scalar.Built E s → scalar.Built E a → scalar.Built E (scalar.Set s a)
  | Clone (s : scalar F) : scalar.Built E s → scalar.Built E (scalar.Clone s)
  | SetBytes (s : scalar F) (src : List Byte) :
      scalar.Built E s → scalar.Built E (scalar.SetBytes E s src)
  | SetInt64 (s : scalar F) (v : Int) :
      scalar.Built E s → scalar.Built E (scalar.SetInt64 E s v)
  | Zero (s : scalar F) : scalar.Built E s → scalar.Built E (scalar.Zero E s)
  | One (s : scalar F) : scalar.Built E s → scalar.Built E (scalar.One E s)
  | Add (s a b : scalar F) : scalar.Built E s → scalar.Built E a → scalar.Built E b →
      scalar.Built E (scalar.Add E s a b)
  | Sub (s a b : scalar F) : scalar.Built E s → scalar.Built E a → scalar.Built E b →
      scalar.Built E (scalar.Sub E s a b)
  | Neg (s a : scalar F) : scalar.Built E s → scalar.Built E a →
      scalar.Built E (scalar.Neg E s a)
  | Mul (s a b : scalar F) : scalar.Built E s → scalar.Built E a → scalar.Built E b →
      scalar.Built E (scalar.Mul E s a b)
  | Div (s a b : scalar F) : scalar.Built E s → scalar.Built E a → scalar.Built E b →
      scalar.Built E (scalar.Div E s a b)
  | Inv (s a : scalar F) : scalar.Built E s → scalar.Built E a →
      scalar.Built E (scalar.Inv E s a)
  | Pick (s : scalar F) (rand : Stream) :
      scalar.Built E s → scalar.Built E (scalar.Pick E s rand)

/-- The points the package builds: the point of `Curve25519.Point()` and the
receiver after every method of `point.go` that returns it, called on built points
and built scalars (`UnmarshalFrom` stores through `UnmarshalBinary` or `Pick`). -/
inductive point.Built (E : FieldEngine Bytes32) : point Bytes32 → Prop
  | fresh : point.Built E (Curve25519.Point E)
  | UnmarshalBinary (p : point Bytes32) (data : List Byte) :
      point.Built E p → point.Built E (point.UnmarshalBinary E p data).1
  | Null (p : point Bytes32) : point.Built E p → point.Built E (point.Null E p)
  | Base (p : point Bytes32) : point.Built E p → point.Built E (point.Base E p)
  | Pick (p : point Bytes32) (rand : Stream) :
      point.Built E p → point.Built E (point.Pick E p rand)
  | Set (p p2 : point Bytes32) : point.Built E p → point.Built E p2 →
      point.Built E (point.Set p p2)
  | Clone (p : point Bytes32) : point.Built E p → point.Built E (point.Clone E p)
  | Embed (p : point Bytes32) (data : List Byte) (r : Stream) :
      point.Built E p → point.Built E (point.Embed E p data r)
  | Add (p a b : point Bytes32) : point.Built E p → point.Built E a → point.Built E b →
      point.Built E (point.Add p a b)
  | Sub (p a b : point Bytes32) : point.Built E p → point.Built E a → point.Built E b →
      point.Built E (point.Sub p a b)
  | Neg (p a : point Bytes32) : point.Built E p → point.Built E a →
      point.Built E (point.Neg p a)
  | MulBase (p : point Bytes32) (s : scalar Bytes32) :
      point.Built E p → scalar.Built E s → point.Built E (point.Mul E p s none)
  | Mul (p : point Bytes32) (s : scalar Bytes32) (p2 : point Bytes32) :
      point.Built E p → scalar.Built E s → point.Built E p2 →
      point.Built E (point.Mul E p s (some p2))

/-! ## The suite registry (`suites`) -/

/-- Modelled from the spec: what the registry reads of a suite, the name its
`String()` gives and the constant-time flag of its curve.  Of the registered suites
only `Curve25519.String` is among the embedded files. -/
structure Suite where
  name : String
  constantTime : Bool
deriving DecidableEq

/-- Modelled from the spec: the registry state, the map `name → Suite` and the
process-wide flag `requireConstTime`, initially false (`suites/suites.go` is not
among the embedded files). -/
structure Registry where
  suites : String → Option Suite
  requireConstTime : Bool

/-- Modelled from the spec: the registry before any registration. -/
def Registry.empty : Registry := ⟨fun _ => none, false⟩

/-- Modelled from the spec: `register(suite)` derives the name from the suite's own
string representation and inserts the suite into the map. -/
def register (r : Registry) (s : Suite) : Registry :=
  { r with suites := fun n => if n = s.name then some s else r.suites n }

/-- Modelled from the spec: `find(name)` returns the registered suite; it fails
with a "not found" error if the name is absent and, when `requireConstTime` is set
and the suite is flagged variable-time, with a "not constant-time" error.  The
result is Go's pair `(Suite, error)`, `none` for `nil`. -/
def Find (r : Registry) (name : String) : Option Suite × Error :=
  match r.suites name with
  | none => (none, some "suite not found")
  | some s =>
    if r.requireConstTime && !s.constantTime then
      (none, some "suite not constant-time")
    else
      (some s, none)

/-- Modelled from the spec: `RequireConstantTime()` sets the process-wide flag. -/
def RequireConstantTime (r : Registry) : Registry :=
  { r with requireConstTime := true }

/-- The suites `init` registers whose `String()` and constant-time flag are not
among the embedded files, under the names of their constructors in `all.go`, and
the flag of the Curve25519 suite. -/
structure Packages where
  NewBlakeSHA256P256 : Suite
  NewBlakeSHA256QR512 : Suite
  NewSuiteG1 : Suite
  NewSuiteG2 : Suite
  NewSuiteGT : Suite
  NewSuiteBn256 : Suite
  NewBlakeSHA256Curve1174 : Suite
  NewBlakeSHA256Curve41417 : Suite
  NewBlakeSHA256E382 : Suite
  NewBlakeSHA256E521 : Suite
  NewBlakeSHA256Twisted25519 : Suite
  NewBlakeSHA256Ed25519 : Suite
  curve25519ConstantTime : Bool

/-- Go `curve25519.NewBlakeSHA256Curve25519()`, as the registry reads it: the suite
embeds `Curve25519`, so its `String()` is `Curve25519.String`. -/
def NewBlakeSHA256Curve25519 (constantTime : Bool) : Suite :=
  ⟨Curve25519.String, constantTime⟩

/-- Go `func init()` of `suites/all.go`: the thirteen registrations, in order. -/
def init (pk : Packages) : Registry :=
  let r := Registry.empty
  let r := register r pk.NewBlakeSHA256P256
  let r := register r pk.NewBlakeSHA256QR512
  let r := register r pk.NewSuiteG1
  let r := register r pk.NewSuiteG2
  let r := register r pk.NewSuiteGT
  let r := register r pk.NewSuiteBn256
  let r := register r pk.NewBlakeSHA256Curve1174
  let r := register r pk.NewBlakeSHA256Curve41417
  let r := register r pk.NewBlakeSHA256E382
  let r := register r pk.NewBlakeSHA256E521
  let r := register r pk.NewBlakeSHA256Twisted25519
  let r := register r pk.NewBlakeSHA256Ed25519
  register r (NewBlakeSHA256Curve25519 pk.curve25519ConstantTime)

/-- Modelled from the spec: suites for `init` with the names the spec and
`suites_test.go` look up; the suites above the comment "constant time
implementation" of `all.go` are variable-time, the ones below constant-time. -/
def specPackages : Packages where
  NewBlakeSHA256P256 := ⟨"P256", false⟩
  NewBlakeSHA256QR512 := ⟨"Residue512", false⟩
  NewSuiteG1 := ⟨"BN256_G1", false⟩
  NewSuiteG2 := ⟨"BN256_G2", false⟩
  NewSuiteGT := ⟨"BN256_GT", false⟩
  NewSuiteBn256 := ⟨"BN256", false⟩
  NewBlakeSHA256Curve1174 := ⟨"Curve1174", false⟩
  NewBlakeSHA256Curve41417 := ⟨"Curve41417", false⟩
  NewBlakeSHA256E382 := ⟨"E382", false⟩
  NewBlakeSHA256E521 := ⟨"E521", false⟩
  NewBlakeSHA256Twisted25519 := ⟨"Twisted25519", false⟩
  NewBlakeSHA256Ed25519 := ⟨"ed25519", true⟩
  curve25519ConstantTime := true

/-! ## Helper lemmas -/

theorem copy32_val (b : Bytes32) : copy32 b.val = b := by
  apply Subtype.ext
  have h := b.property
  simp [copy32, h, List.take_of_length_le]

/-! ## The modelled engine returns canonical elements -/

theorem leDecode_append (l : List Byte) (b : Byte) :
    leDecode (l ++ [b]) = leDecode l + 256 ^ l.length * b.val := by
  induction l with
  | nil => simp [leDecode]
  | cons a l ih =>
    have e : leDecode (a :: (l ++ [b])) = a.val + 256 * leDecode (l ++ [b]) := rfl
    rw [List.cons_append, e, ih]
    simp only [leDecode, List.length_cons, pow_succ]
    ring

theorem leDecode_range_map (v k : Nat) :
    leDecode ((List.range k).map
      (fun i => (⟨(v / 256 ^ i) % 256, Nat.mod_lt _ (by decide)⟩ : Byte))) = v % 256 ^ k := by
  induction k with
  | zero => simp [leDecode, Nat.mod_one]
  | succ k ih =>
    rw [List.range_succ, List.map_append, List.map_singleton, leDecode_append, ih]
    simp only [List.length_map, List.length_range]
    rw [Nat.mod_pow_succ]

/-- Decoding the 32-byte encoding of `v` gives `v` modulo `2^256`. -/
theorem leDecode_encode32 (v : Nat) : leDecode (encode32 v).val = v % 256 ^ 32 :=
  leDecode_range_map v 32

/-- The encoding of a reduced integer is a canonical element of the modelled
engine. -/
theorem specField_Canonical_encode32 (m : Nat) (h : m < fieldPrime) :
    specField.Canonical (encode32 m) := by
  have h256 : fieldPrime < 256 ^ 32 := by decide
  have e1 : leDecode (encode32 m).val = m := by
    rw [leDecode_encode32, Nat.mod_eq_of_lt (lt_trans h h256)]
  simp only [FieldEngine.Canonical, specField, e1, Nat.mod_eq_of_lt h]

theorem powMod_lt (m : Nat) (hm : 0 < m) (fuel b e : Nat) : powMod m fuel b e < m := by
  induction fuel generalizing b e with
  | zero => exact Nat.mod_lt _ hm
  | succ n ih =>
    unfold powMod
    split_ifs
    · exact Nat.mod_lt _ hm
    · exact Nat.mod_lt _ hm
    · exact ih _ _

/-- Every element the modelled engine returns, and the zero value, is canonical: the
canonical-form hypotheses below hold for every scalar and point the package builds
with it. -/
theorem specField_results_Canonical :
    specField.Canonical specField.zeroValue ∧ specField.Canonical specField.feZero ∧
      specField.Canonical specField.feOne ∧
      (∀ a b, specField.Canonical (specField.feAdd a b)) ∧
      (∀ a b, specField.Canonical (specField.feSub a b)) ∧
      (∀ a b, specField.Canonical (specField.feMul a b)) ∧
      (∀ a, specField.Canonical (specField.feInvert a)) ∧
      (∀ b, specField.Canonical (specField.feFromBytes b)) ∧
      (∀ k b, specField.Canonical (specField.ScalarMult k b)) := by
  have hpos : 0 < fieldPrime := by decide
  have hz : specField.zeroValue = encode32 0 := by decide
  refine ⟨?_, ?_, ?_, ?_, ?_, ?_, ?_, ?_, ?_⟩
  · rw [hz]; exact specField_Canonical_encode32 0 hpos
  · exact specField_Canonical_encode32 0 hpos
  · exact specField_Canonical_encode32 1 (by decide)
  · intro a b; exact specField_Canonical_encode32 _ (Nat.mod_lt _ hpos)
  · intro a b; exact specField_Canonical_encode32 _ (Nat.mod_lt _ hpos)
  · intro a b; exact specField_Canonical_encode32 _ (Nat.mod_lt _ hpos)
  · intro a; exact specField_Canonical_encode32 _ (powMod_lt _ hpos _ _ _)
  · intro b; exact specField_Canonical_encode32 _ (Nat.mod_lt _ hpos)
  · intro k b; exact specField_Canonical_encode32 _ (Nat.mod_lt _ hpos)

/-- Every scalar the package builds with the modelled engine stores a canonical
field element. -/
theorem scalar_Built_Canonical (s : scalar Bytes32) (h : scalar.Built specField s) :
    specField.Canonical s.fieldElement := by
  obtain ⟨hzero, hfeZero, hfeOne, hadd, hsub, hmul, hinv, hfrom, _⟩ :=
    specField_results_Canonical
  induction h with
  | fresh => exact hzero
  | UnmarshalBinary s data _ ih =>
    by_cases hl : data.length = 32
    · simp only [scalar.UnmarshalBinary, hl, ne_eq, not_true_eq_false, if_false]
      exact hfrom _
    · simp only [scalar.UnmarshalBinary, hl, ne_eq, not_false_eq_true, if_true]
      exact ih
  | Set s a _ _ _ iha => exact iha
  | Clone s _ ih => exact ih
  | SetBytes s src _ _ => exact hfrom _
  | SetInt64 s v _ _ => exact hfrom _
  | Zero s _ _ => exact hfeZero
  | One s _ _ => exact hfeOne
  | Add s a b _ _ _ _ _ _ => exact hadd _ _
  | Sub s a b _ _ _ _ _ _ => exact hsub _ _
  | Neg s a _ _ _ _ => exact hsub _ _
  | Mul s a b _ _ _ _ _ _ => exact hmul _ _
  | Div s a b _ _ _ _ _ _ => exact hmul _ _
  | Inv s a _ _ _ _ => exact hinv _
  | Pick s rand _ _ => exact hfrom _

/-- Every point the package builds with the modelled engine stores a canonical `X`. -/
theorem point_Built_Canonical (p : point Bytes32) (h : point.Built specField p) :
    specField.Canonical p.X := by
  obtain ⟨hzero, _, _, _, _, _, _, hfrom, hsm⟩ := specField_results_Canonical
  induction h with
  | fresh => exact hzero
  | UnmarshalBinary p data _ _ => exact hfrom _
  | Null p _ _ => exact hzero
  | Base p _ _ => exact hfrom _
  | Pick p rand _ _ => exact hfrom _
  | Set p p2 _ _ _ ih2 => exact ih2
  | Clone p _ ih => exact ih
  | Embed p data r _ _ => exact hfrom _
  | Add p a b _ _ _ ih _ _ => exact ih
  | Sub p a b _ _ _ ih _ _ => exact ih
  | Neg p a _ _ ih _ => exact ih
  | MulBase p s _ _ _ => exact hsm _ _
  | Mul p s p2 _ _ _ _ _ => exact hsm _ _

/-! ## Decoding: lengths -/

/-- Claim C2: `scalar.UnmarshalBinary(data)` returns an error if and only if
`len(data) != 32`. -/
theorem scalar_UnmarshalBinary_error_iff {F : Type} (E : FieldEngine F) (s : scalar F)
    (data : List Byte) :
    (scalar.UnmarshalBinary E s data).2 ≠ none ↔ data.length ≠ 32 := by
  unfold scalar.UnmarshalBinary
  by_cases h : data.length = 32 <;> simp [h]

/-- Claim C1 (evaluation of the code): `point.UnmarshalBinary` returns a nil error
for every input, whatever its length, the empty slice included; a shorter input is
padded with zeros and a longer one is cut at 32 bytes. -/
theorem point_UnmarshalBinary_never_fails {F : Type} (E : FieldEngine F) (p : point F)
    (data : List Byte) :
    (point.UnmarshalBinary E p data).2 = none ∧
      (point.UnmarshalBinary E p []).2 = none ∧
      (point.UnmarshalBinary E p data).1.X = E.feFromBytes (copy32 data) :=
  ⟨rfl, rfl, rfl⟩

/-! ## The scalar inverse -/

set_option maxRecDepth 100000 in
/-- Claim C3 (evaluation of the code): `s.Inv(a)` inverts the receiver's prior value
and never reads `a`; with the receiver holding 1 and `a = 2`, `Mul(a, s)` after
`s.Inv(a)` is 2, not `One()`. -/
theorem scalar_Inv_inverts_receiver :
    (∀ (F : Type) (E : FieldEngine F) (s a : scalar F),
        scalar.Inv E s a = ⟨E.feInvert s.fieldElement⟩) ∧
      (let fresh := Curve25519.Scalar specField
       let a := scalar.SetInt64 specField fresh 2
       let s := scalar.Inv specField (scalar.One specField fresh) a
       scalar.Equal (scalar.Mul specField fresh a s) (scalar.One specField fresh) = false ∧
         scalar.Equal (scalar.Mul specField fresh a s) a = true) := by
  refine ⟨fun F E s a => rfl, ?_⟩
  decide

set_option maxRecDepth 100000 in
/-- Claim C7 (evaluation of the code): `Mul(a, Inv(b))` with `Inv(b)` computed into
a fresh scalar is `a` times the inverse of the fresh scalar's zero value, whatever
`b` is; for `a = b = 2` it is 0 while `Div(a, b)` is 1. -/
theorem scalar_Div_differs_from_Mul_Inv :
    (∀ (F : Type) (E : FieldEngine F) (r a b : scalar F),
        scalar.Mul E r a (scalar.Inv E (Curve25519.Scalar E) b)
          = ⟨E.feMul a.fieldElement (E.feInvert E.zeroValue)⟩) ∧
      (let fresh := Curve25519.Scalar specField
       let a := scalar.SetInt64 specField fresh 2
       let b := scalar.SetInt64 specField fresh 2
       scalar.Equal (scalar.Div specField fresh a b)
           (scalar.Mul specField fresh a (scalar.Inv specField fresh b)) = false ∧
         scalar.Equal (scalar.Div specField fresh a b) (scalar.One specField fresh) = true ∧
         scalar.Equal (scalar.Mul specField fresh a (scalar.Inv specField fresh b))
           (scalar.Zero specField fresh) = true) := by
  refine ⟨fun F E r a b => rfl, ?_⟩
  decide

/-! ## Points: the doubling scenario and embedding -/

set_option maxRecDepth 1000000 in
/-- Claim C4 (evaluation of the code): `Add(Base(), Base())` into a fresh point
leaves the fresh point, so `P = Mul(2, Base())` equals it only if `P.X` is the zero
value; on Curve25519 `P` is neither that point nor `Base()`. -/
theorem point_Mul_two_ne_Add_Base_Base :
    (∀ (E : FieldEngine Bytes32) (s : scalar Bytes32),
        let B := point.Base E (Curve25519.Point E)
        let P := point.Mul E (Curve25519.Point E) s (some B)
        point.Equal P (point.Add (Curve25519.Point E) B B) = decide (P.X = E.zeroValue)) ∧
      (let s := scalar.SetInt64 specField (Curve25519.Scalar specField) 2
       let B := point.Base specField (Curve25519.Point specField)
       let P := point.Mul specField (Curve25519.Point specField) s (some B)
       let Q := point.Add (Curve25519.Point specField) B B
       Q = Curve25519.Point specField ∧ point.Equal P Q = false ∧
         point.Equal P B = false) := by
  refine ⟨fun E s => rfl, ?_⟩
  decide

/-- Claim C5 (evaluation of the code): `Data()` of the point produced by
`Embed(d, r)` is the empty slice with no error, whatever `d` and `r` are; for the
one-byte `d = [42]` that is not `d`. -/
theorem point_Data_Embed_is_empty {F : Type} (E : FieldEngine F) (p : point F)
    (d : List Byte) (r : Stream) :
    point.Data (point.Embed E p d r) = ([], none) ∧
      ([42] : List Byte).length ≤ point.EmbedLen p ∧
      (point.Data (point.Embed E p [42] r)).1 ≠ [42] := by
  refine ⟨rfl, ?_, ?_⟩
  · simp [point.EmbedLen]
  · simp [point.Data]

/-! ## Encoding round trip and equality -/

/-- Round trip on canonical elements, for every engine: for a scalar `x` and a point
`p` whose field elements are in the engine's canonical form, `MarshalBinary` returns
no error, decoding its bytes with `UnmarshalBinary` into any object of the same type
returns no error, and the decoded object is `Equal` to the original. -/
theorem marshal_unmarshal_roundtrip {F : Type} [DecidableEq F] (E : FieldEngine F)
    (x y : scalar F) (p q : point F)
    (hx : E.Canonical x.fieldElement) (hp : E.Canonical p.X) :
    ((scalar.MarshalBinary E x).2 = none ∧
      (scalar.UnmarshalBinary E y (scalar.MarshalBinary E x).1).2 = none ∧
      scalar.Equal (scalar.UnmarshalBinary E y (scalar.MarshalBinary E x).1).1 x = true) ∧
    ((point.MarshalBinary E p).2 = none ∧
      (point.UnmarshalBinary E q (point.MarshalBinary E p).1).2 = none ∧
      point.Equal (point.UnmarshalBinary E q (point.MarshalBinary E p).1).1 p = true) := by
  unfold FieldEngine.Canonical at hx hp
  refine ⟨⟨rfl, ?_, ?_⟩, ⟨rfl, rfl, ?_⟩⟩
  · simp [scalar.UnmarshalBinary, scalar.MarshalBinary, (E.feToBytes x.fieldElement).property]
  · simp [scalar.UnmarshalBinary, scalar.MarshalBinary, scalar.Equal,
      (E.feToBytes x.fieldElement).property, copy32_val, hx]
  · simp [point.UnmarshalBinary, point.MarshalBinary, point.Equal, copy32_val, hp]

/-- Witness for `marshal_unmarshal_roundtrip`: the scalar 2 and the base point of
Curve25519, decoded into a fresh scalar and a fresh point. -/
theorem marshal_unmarshal_roundtrip_witness :
    let x := scalar.SetInt64 specField (Curve25519.Scalar specField) 2
    let y := Curve25519.Scalar specField
    let p := point.Base specField (Curve25519.Point specField)
    let q := Curve25519.Point specField
    (specField.Canonical x.fieldElement ∧ specField.Canonical p.X) ∧
    ((scalar.MarshalBinary specField x).2 = none ∧
      (scalar.UnmarshalBinary specField y (scalar.MarshalBinary specField x).1).2 = none ∧
      scalar.Equal (scalar.UnmarshalBinary specField y (scalar.MarshalBinary specField x).1).1 x
        = true) ∧
    ((point.MarshalBinary specField p).2 = none ∧
      (point.UnmarshalBinary specField q (point.MarshalBinary specField p).1).2 = none ∧
      point.Equal (point.UnmarshalBinary specField q (point.MarshalBinary specField p).1).1 p
        = true) :=
  ⟨⟨by decide, by decide⟩,
    marshal_unmarshal_roundtrip specField
      (scalar.SetInt64 specField (Curve25519.Scalar specField) 2) (Curve25519.Scalar specField)
      (point.Base specField (Curve25519.Point specField)) (Curve25519.Point specField)
      (by decide) (by decide)⟩

/-- Equality on canonical elements, for every engine: for scalars `a`, `b` and points
`p`, `q` whose stored field elements are in the engine's canonical form, `Equal` is
true exactly when `MarshalBinary` returns the same 32 bytes for both. -/
theorem Equal_iff_same_encoding {F : Type} [DecidableEq F] (E : FieldEngine F)
    (a b : scalar F) (p q : point F)
    (ha : E.Canonical a.fieldElement) (hb : E.Canonical b.fieldElement)
    (hp : E.Canonical p.X) (hq : E.Canonical q.X) :
    (scalar.Equal a b = true ↔ (scalar.MarshalBinary E a).1 = (scalar.MarshalBinary E b).1) ∧
    (point.Equal p q = true ↔ (point.MarshalBinary E p).1 = (point.MarshalBinary E q).1) := by
  unfold FieldEngine.Canonical at ha hb hp hq
  constructor
  · simp only [scalar.Equal, scalar.MarshalBinary, decide_eq_true_eq]
    constructor
    · intro h; rw [h]
    · intro h
      have h2 : E.feToBytes a.fieldElement = E.feToBytes b.fieldElement := Subtype.ext h
      rw [← ha, ← hb, h2]
  · simp only [point.Equal, point.MarshalBinary, decide_eq_true_eq]
    constructor
    · intro h; rw [h]
    · intro h
      have h2 : E.feToBytes p.X = E.feToBytes q.X := Subtype.ext h
      rw [← hp, ← hq, h2]

/-- Witness for `Equal_iff_same_encoding`: the scalars 2 and 1, the base point and
the neutral point of Curve25519. -/
theorem Equal_iff_same_encoding_witness :
    let a := scalar.SetInt64 specField (Curve25519.Scalar specField) 2
    let b := scalar.One specField (Curve25519.Scalar specField)
    let p := point.Base specField (Curve25519.Point specField)
    let q := point.Null specField (Curve25519.Point specField)
    (specField.Canonical a.fieldElement ∧ specField.Canonical b.fieldElement ∧
      specField.Canonical p.X ∧ specField.Canonical q.X) ∧
    (scalar.Equal a b = true ↔
      (scalar.MarshalBinary specField a).1 = (scalar.MarshalBinary specField b).1) ∧
    (point.Equal p q = true ↔
      (point.MarshalBinary specField p).1 = (point.MarshalBinary specField q).1) :=
  ⟨⟨by decide, by decide, by decide, by decide⟩,
    Equal_iff_same_encoding specField
      (scalar.SetInt64 specField (Curve25519.Scalar specField) 2)
      (scalar.One specField (Curve25519.Scalar specField))
      (point.Base specField (Curve25519.Point specField))
      (point.Null specField (Curve25519.Point specField))
      (by decide) (by decide) (by decide) (by decide)⟩

set_option maxRecDepth 100000 in
/-- Outside the built values: a scalar made to store the unreduced representative
`p` of 0, which no operation of the package stores, is not `Equal` to `Zero()`
although `MarshalBinary` returns the same 32 bytes for both; `Equal` compares the
stored field elements. -/
theorem Equal_depends_on_representation :
    ¬ (scalar.Equal (⟨encode32 fieldPrime⟩ : scalar Bytes32)
          (scalar.Zero specField (Curve25519.Scalar specField)) = true ↔
        (scalar.MarshalBinary specField (⟨encode32 fieldPrime⟩ : scalar Bytes32)).1
          = (scalar.MarshalBinary specField
              (scalar.Zero specField (Curve25519.Scalar specField))).1) := by
  decide

/-! ## Round trip and equality on the values the package builds -/

/-- Claim C6: for every scalar `x` and every point `p` the package builds over the
Curve25519 field, `MarshalBinary` returns no error, decoding its bytes with
`UnmarshalBinary` into any object of the same type, a fresh one included, returns no
error, and the decoded object `y` has `y.Equal(x)` true. -/
theorem marshal_roundtrip_built (x y : scalar Bytes32) (p q : point Bytes32)
    (hx : scalar.Built specField x) (hp : point.Built specField p) :
    ((scalar.MarshalBinary specField x).2 = none ∧
      (scalar.UnmarshalBinary specField y (scalar.MarshalBinary specField x).1).2 = none ∧
      scalar.Equal (scalar.UnmarshalBinary specField y (scalar.MarshalBinary specField x).1).1 x
        = true) ∧
    ((point.MarshalBinary specField p).2 = none ∧
      (point.UnmarshalBinary specField q (point.MarshalBinary specField p).1).2 = none ∧
      point.Equal (point.UnmarshalBinary specField q (point.MarshalBinary specField p).1).1 p
        = true) := by
  have cx := scalar_Built_Canonical x hx
  have cp := point_Built_Canonical p hp
  exact marshal_unmarshal_roundtrip specField x y p q cx cp

/-- Witness for `marshal_roundtrip_built`: the scalar `2 + (-1)` built by `SetInt64`,
`One`, `Neg` and `Add`, and that scalar times the base point, decoded into a fresh
scalar and a fresh point. -/
theorem marshal_roundtrip_built_witness :
    let s0 := Curve25519.Scalar specField
    let x := scalar.Add specField s0 (scalar.SetInt64 specField s0 2)
      (scalar.Neg specField s0 (scalar.One specField s0))
    let p := point.Mul specField (Curve25519.Point specField) x none
    (scalar.Built specField x ∧ point.Built specField p) ∧
    ((scalar.MarshalBinary specField x).2 = none ∧
      (scalar.UnmarshalBinary specField s0 (scalar.MarshalBinary specField x).1).2 = none ∧
      scalar.Equal (scalar.UnmarshalBinary specField s0 (scalar.MarshalBinary specField x).1).1 x
        = true) ∧
    ((point.MarshalBinary specField p).2 = none ∧
      (point.UnmarshalBinary specField (Curve25519.Point specField)
        (point.MarshalBinary specField p).1).2 = none ∧
      point.Equal (point.UnmarshalBinary specField (Curve25519.Point specField)
        (point.MarshalBinary specField p).1).1 p = true) :=
  have hx : scalar.Built specField
      (scalar.Add specField (Curve25519.Scalar specField)
        (scalar.SetInt64 specField (Curve25519.Scalar specField) 2)
        (scalar.Neg specField (Curve25519.Scalar specField)
          (scalar.One specField (Curve25519.Scalar specField)))) :=
    .Add _ _ _ .fresh (.SetInt64 _ 2 .fresh) (.Neg _ _ .fresh (.One _ .fresh))
  have hp : point.Built specField
      (point.Mul specField (Curve25519.Point specField)
        (scalar.Add specField (Curve25519.Scalar specField)
          (scalar.SetInt64 specField (Curve25519.Scalar specField) 2)
          (scalar.Neg specField (Curve25519.Scalar specField)
            (scalar.One specField (Curve25519.Scalar specField)))) none) :=
    .MulBase _ _ .fresh hx
  ⟨⟨hx, hp⟩, marshal_roundtrip_built _ (Curve25519.Scalar specField) _
    (Curve25519.Point specField) hx hp⟩

/-- Claim C9: for all scalars `a`, `b` and all points `p`, `q` the package builds over
the Curve25519 field, `Equal` is true exactly when `MarshalBinary` returns the same
32 bytes for both: on these values the comparison of the stored field elements is
the comparison of the canonical encodings. -/
theorem Equal_iff_MarshalBinary_built (a b : scalar Bytes32) (p q : point Bytes32)
    (ha : scalar.Built specField a) (hb : scalar.Built specField b)
    (hp : point.Built specField p) (hq : point.Built specField q) :
    (scalar.Equal a b = true ↔
      (scalar.MarshalBinary specField a).1 = (scalar.MarshalBinary specField b).1) ∧
    (point.Equal p q = true ↔
      (point.MarshalBinary specField p).1 = (point.MarshalBinary specField q).1) := by
  have ca := scalar_Built_Canonical a ha
  have cb := scalar_Built_Canonical b hb
  have cp := point_Built_Canonical p hp
  have cq := point_Built_Canonical q hq
  exact Equal_iff_same_encoding specField a b p q ca cb cp cq

/-- Witness for `Equal_iff_MarshalBinary_built`: the scalars `2 * 1` and `2`, and the
points `Base()` and `Mul(1, nil)`. -/
theorem Equal_iff_MarshalBinary_built_witness :
    let s0 := Curve25519.Scalar specField
    let p0 := Curve25519.Point specField
    let a := scalar.Mul specField s0 (scalar.SetInt64 specField s0 2) (scalar.One specField s0)
    let b := scalar.SetInt64 specField s0 2
    let p := point.Base specField p0
    let q := point.Mul specField p0 (scalar.One specField s0) none
    (scalar.Built specField a ∧ scalar.Built specField b ∧
      point.Built specField p ∧ point.Built specField q) ∧
    (scalar.Equal a b = true ↔
      (scalar.MarshalBinary specField a).1 = (scalar.MarshalBinary specField b).1) ∧
    (point.Equal p q = true ↔
      (point.MarshalBinary specField p).1 = (point.MarshalBinary specField q).1) :=
  have ha : scalar.Built specField
      (scalar.Mul specField (Curve25519.Scalar specField)
        (scalar.SetInt64 specField (Curve25519.Scalar specField) 2)
        (scalar.One specField (Curve25519.Scalar specField))) :=
    .Mul _ _ _ .fresh (.SetInt64 _ 2 .fresh) (.One _ .fresh)
  have hb : scalar.Built specField
      (scalar.SetInt64 specField (Curve25519.Scalar specField) 2) :=
    .SetInt64 _ 2 .fresh
  have hp : point.Built specField (point.Base specField (Curve25519.Point specField)) :=
    .Base _ .fresh
  have hq : point.Built specField
      (point.Mul specField (Curve25519.Point specField)
        (scalar.One specField (Curve25519.Scalar specField)) none) :=
    .MulBase _ _ .fresh (.One _ .fresh)
  ⟨⟨ha, hb, hp, hq⟩, Equal_iff_MarshalBinary_built _ _ _ _ ha hb hp hq⟩

set_option maxRecDepth 100000 in
/-- The scalar storing the unreduced representative `p` of 0 is not among the scalars
the package builds. -/
theorem unreduced_not_Built :
    ¬ scalar.Built specField (⟨encode32 fieldPrime⟩ : scalar Bytes32) := by
  intro h
  have hc := scalar_Built_Canonical _ h
  revert hc
  decide

/-! ## Multiplication of the base point -/

/-- Claim C8: when decoding the bytes of `basePoint` gives that same array as field
element, `p.Mul(s, nil)` is the same point as `p.Mul(s, B)` for `B` set by `Base()`,
for every scalar `s` and every receiver `p`. -/
theorem point_Mul_nil_eq_Mul_Base (E : FieldEngine Bytes32)
    (hbase : E.feFromBytes E.basePoint = E.basePoint)
    (p b0 : point Bytes32) (s : scalar Bytes32) :
    point.Mul E p s none = point.Mul E p s (some (point.Base E b0)) := by
  simp [point.Mul, point.Base, point.UnmarshalBinary, copy32_val, hbase]

/-- Witness for `point_Mul_nil_eq_Mul_Base`: the Curve25519 engine, the scalar 2 and
fresh points. -/
theorem point_Mul_nil_eq_Mul_Base_witness :
    specField.feFromBytes specField.basePoint = specField.basePoint ∧
      point.Mul specField (Curve25519.Point specField)
          (scalar.SetInt64 specField (Curve25519.Scalar specField) 2) none
        = point.Mul specField (Curve25519.Point specField)
          (scalar.SetInt64 specField (Curve25519.Scalar specField) 2)
          (some (point.Base specField (Curve25519.Point specField))) :=
  ⟨by decide,
    point_Mul_nil_eq_Mul_Base specField (by decide) (Curve25519.Point specField)
      (Curve25519.Point specField) (scalar.SetInt64 specField (Curve25519.Scalar specField) 2)⟩

/-! ## The registry after `init` -/

theorem Find_registered (r : Registry) (name : String) (s : Suite)
    (h : r.suites name = some s) :
    Find r name
      = if r.requireConstTime && !s.constantTime then (none, some "suite not constant-time")
        else (some s, none) := by
  simp [Find, h]

theorem init_suites_ed25519 (pk : Packages) (hed : pk.NewBlakeSHA256Ed25519.name = "ed25519") :
    (init pk).suites "ed25519" = some pk.NewBlakeSHA256Ed25519 := by
  simp [init, register, NewBlakeSHA256Curve25519, Curve25519.String, hed]

theorem init_suites_BN256_G1 (pk : Packages)
    (hed : pk.NewBlakeSHA256Ed25519.name = "ed25519")
    (hg1 : pk.NewSuiteG1.name = "BN256_G1")
    (hlater : ∀ s ∈ [pk.NewSuiteG2, pk.NewSuiteGT, pk.NewSuiteBn256,
      pk.NewBlakeSHA256Curve1174, pk.NewBlakeSHA256Curve41417, pk.NewBlakeSHA256E382,
      pk.NewBlakeSHA256E521, pk.NewBlakeSHA256Twisted25519], s.name ≠ "BN256_G1") :
    (init pk).suites "BN256_G1" = some pk.NewSuiteG1 := by
  simp only [List.mem_cons, List.mem_singleton, List.not_mem_nil, or_false,
    forall_eq_or_imp, forall_eq] at hlater
  obtain ⟨h2, h3, h4, h5, h6, h7, h8, h9⟩ := hlater
  simp [init, register, NewBlakeSHA256Curve25519, Curve25519.String, hed, hg1,
    Ne.symm h2, Ne.symm h3, Ne.symm h4, Ne.symm h5, Ne.symm h6, Ne.symm h7, Ne.symm h8,
    Ne.symm h9]

/-- Claim C10: after `init`, when the Ed25519 suite registers under the name
"ed25519" as constant-time, the BN256 G1 suite under "BN256_G1" as variable-time, and
no suite registered after G1 takes its name, `Find("ed25519")` returns that suite and
no error with and without constant-time enforcement, and `Find("BN256_G1")` returns
its suite and no error normally but a nil suite and an error once
`RequireConstantTime()` has been called. -/
theorem Find_after_init (pk : Packages)
    (hed : pk.NewBlakeSHA256Ed25519.name = "ed25519")
    (hedct : pk.NewBlakeSHA256Ed25519.constantTime = true)
    (hg1 : pk.NewSuiteG1.name = "BN256_G1")
    (hg1ct : pk.NewSuiteG1.constantTime = false)
    (hlater : ∀ s ∈ [pk.NewSuiteG2, pk.NewSuiteGT, pk.NewSuiteBn256,
      pk.NewBlakeSHA256Curve1174, pk.NewBlakeSHA256Curve41417, pk.NewBlakeSHA256E382,
      pk.NewBlakeSHA256E521, pk.NewBlakeSHA256Twisted25519], s.name ≠ "BN256_G1") :
    Find (init pk) "ed25519" = (some pk.NewBlakeSHA256Ed25519, none) ∧
      Find (RequireConstantTime (init pk)) "ed25519" = (some pk.NewBlakeSHA256Ed25519, none) ∧
      Find (init pk) "BN256_G1" = (some pk.NewSuiteG1, none) ∧
      (Find (RequireConstantTime (init pk)) "BN256_G1").1 = none ∧
      (Find (RequireConstantTime (init pk)) "BN256_G1").2 ≠ none := by
  have e1 := init_suites_ed25519 pk hed
  have e2 := init_suites_BN256_G1 pk hed hg1 hlater
  have f0 : (init pk).requireConstTime = false := rfl
  have e1t : (RequireConstantTime (init pk)).suites "ed25519" = some pk.NewBlakeSHA256Ed25519 := e1
  have e2t : (RequireConstantTime (init pk)).suites "BN256_G1" = some pk.NewSuiteG1 := e2
  have f1 : (RequireConstantTime (init pk)).requireConstTime = true := rfl
  rw [Find_registered _ _ _ e1, Find_registered _ _ _ e1t, Find_registered _ _ _ e2,
    Find_registered _ _ _ e2t, f0, f1, hedct, hg1ct]
  simp

/-- Witness for `Find_after_init`: the suites of `specPackages`. -/
theorem Find_after_init_witness :
    (specPackages.NewBlakeSHA256Ed25519.name = "ed25519" ∧
      specPackages.NewBlakeSHA256Ed25519.constantTime = true ∧
      specPackages.NewSuiteG1.name = "BN256_G1" ∧
      specPackages.NewSuiteG1.constantTime = false) ∧
    (Find (init specPackages) "ed25519" = (some specPackages.NewBlakeSHA256Ed25519, none) ∧
      Find (RequireConstantTime (init specPackages)) "ed25519"
        = (some specPackages.NewBlakeSHA256Ed25519, none) ∧
      Find (init specPackages) "BN256_G1" = (some specPackages.NewSuiteG1, none) ∧
      (Find (RequireConstantTime (init specPackages)) "BN256_G1").1 = none ∧
      (Find (RequireConstantTime (init specPackages)) "BN256_G1").2 ≠ none) :=
  ⟨⟨rfl, rfl, rfl, rfl⟩,
    Find_after_init specPackages rfl rfl rfl rfl (by decide)⟩

/-! ## Encoded lengths -/

/-- Claim C11: for every point `p` and scalar `s`, `MarshalBinary` returns exactly 32
bytes and no error, and that length is `MarshalSize()`, `PointLen()` and
`ScalarLen()`. -/
theorem MarshalBinary_length {F : Type} (E : FieldEngine F) (p : point F) (s : scalar F) :
    ((point.MarshalBinary E p).1.length = 32 ∧ (point.MarshalBinary E p).2 = none ∧
      (point.MarshalBinary E p).1.length = point.MarshalSize p ∧
      (point.MarshalBinary E p).1.length = Curve25519.PointLen) ∧
    ((scalar.MarshalBinary E s).1.length = 32 ∧ (scalar.MarshalBinary E s).2 = none ∧
      (scalar.MarshalBinary E s).1.length = scalar.MarshalSize s ∧
      (scalar.MarshalBinary E s).1.length = Curve25519.ScalarLen) ∧
    Curve25519.PointLen = Curve25519.ScalarLen := by
  have hp : (point.MarshalBinary E p).1.length = 32 := (E.feToBytes p.X).property
  have hs : (scalar.MarshalBinary E s).1.length = 32 := (E.feToBytes s.fieldElement).property
  exact ⟨⟨hp, rfl, hp, hp⟩, ⟨hs, rfl, hs, hs⟩, rfl⟩

/-! ## Point addition, subtraction and negation -/

/-- Claim C13: `p.Add(a, b)`, `p.Sub(a, b)` and `p.Neg(a)` return the receiver with
both coordinates as they were; the result does not depend on `a` or `b`. -/
theorem point_Add_Sub_Neg_return_receiver {F : Type} (p a b a2 b2 : point F) :
    (point.Add p a b = p ∧ point.Sub p a b = p ∧ point.Neg p a = p) ∧
    ((point.Add p a b).X = p.X ∧ (point.Add p a b).Y = p.Y ∧
      (point.Sub p a b).X = p.X ∧ (point.Sub p a b).Y = p.Y ∧
      (point.Neg p a).X = p.X ∧ (point.Neg p a).Y = p.Y) ∧
    (point.Add p a b = point.Add p a2 b2 ∧ point.Sub p a b = point.Sub p a2 b2 ∧
      point.Neg p a = point.Neg p a2) :=
  ⟨⟨rfl, rfl, rfl⟩, ⟨rfl, rfl, rfl, rfl, rfl, rfl⟩, ⟨rfl, rfl, rfl⟩⟩

/-! ## Scalars: the additive inverse -/

theorem add_neg_mod (q d : Nat) (hq : 0 < q) : (d + (q - d % q) % q) % q = 0 := by
  have hr : d % q < q := Nat.mod_lt _ hq
  rw [Nat.add_mod, Nat.mod_mod]
  by_cases h0 : d % q = 0
  · simp [h0]
  · have hlt : q - d % q < q := by omega
    rw [Nat.mod_eq_of_lt hlt]
    have e : d % q + (q - d % q) = q := by omega
    rw [e, Nat.mod_self]

theorem specField_feAdd_feSub_zero (a : Bytes32) :
    specField.feAdd a (specField.feSub specField.feZero a) = specField.feZero := by
  have hpos : 0 < fieldPrime := by decide
  have h256 : fieldPrime < 256 ^ 32 := by decide
  have hz : leDecode (encode32 0).val = 0 := by rw [leDecode_encode32]; rfl
  have ht : (fieldPrime - leDecode a.val % fieldPrime) % fieldPrime < 256 ^ 32 :=
    lt_trans (Nat.mod_lt _ hpos) h256
  simp only [specField, hz, Nat.zero_add, leDecode_encode32, Nat.mod_eq_of_lt ht,
    add_neg_mod fieldPrime (leDecode a.val) hpos]

/-- Claim C12: `Add(a, Neg(a))` stores `feAdd(a, feSub(feZero, a))` and `Zero()` stores
`feZero`, so under `Equal` they agree exactly when the engine's sum is its zero; with
the Curve25519 field arithmetic they agree for every scalar `a`, whatever the
receivers held. -/
theorem scalar_Add_Neg_eq_Zero :
    (∀ (F : Type) [DecidableEq F] (E : FieldEngine F) (r1 r2 r3 a : scalar F),
        scalar.Equal (scalar.Add E r1 a (scalar.Neg E r2 a)) (scalar.Zero E r3)
          = decide (E.feAdd a.fieldElement (E.feSub E.feZero a.fieldElement) = E.feZero)) ∧
      (∀ r1 r2 r3 a : scalar Bytes32,
        scalar.Equal (scalar.Add specField r1 a (scalar.Neg specField r2 a))
          (scalar.Zero specField r3) = true) := by
  refine ⟨fun F _ E r1 r2 r3 a => rfl, fun r1 r2 r3 a => ?_⟩
  simp only [scalar.Equal, scalar.Add, scalar.Neg, scalar.Zero, decide_eq_true_eq]
  exact specField_feAdd_feSub_zero a.fieldElement

end Kyber
